import Mathlib

/-!
Verification of the blog-feed ingestion and caching layer of the repository
(`functions/api/blog.js`).  The JavaScript code is shallowly embedded:

* strings are `List Char`;
* the regex-based field extraction of `parseRssFeed` is modelled by
  executable scanners that reproduce the leftmost-match / lazy / greedy
  behaviour of the concrete regexes used in the source;
* `Array.prototype.sort` (guaranteed stable since ES2019) with the comparator
  `(a, b) => b.timestamp - a.timestamp` is modelled by a stable insertion
  sort; a comparator result of `NaN` is treated as `+0` exactly as the
  ECMAScript `SortCompare` operation prescribes;
* `new Date(s).getTime()` is host-defined, so it enters the model as a
  parameter `parseDate : List Char → Option Int`, where `none` stands for the
  `NaN` of an invalid date and `some t` for a finite epoch-millisecond value;
* the Cloudflare KV store and `fetch` are modelled by explicit inputs to the
  request handler (`World`), and the handler returns its observable effects
  (response, whether an upstream fetch happened, the cache entry written).
-/

/-- Characters matched by the JavaScript regex metacharacter `.`
(everything except the four ECMAScript line terminators). -/
def isDotChar (c : Char) : Bool :=
  !(c = '\n' || c = '\r' || c = ' ' || c = ' ')

/-- JavaScript `String.prototype.trim` whitespace (the common subset that can
actually appear here: space, tab, line feed, carriage return, form feed,
vertical tab, no-break space). -/
def jsWhitespace (c : Char) : Bool :=
  c = ' ' || c = '\t' || c = '\n' || c = '\r' ||
  c = '\x0b' || c = '\x0c' || c = ' '

/-- JavaScript `String.prototype.trim` on `List Char`. -/
def trimL (s : List Char) : List Char :=
  ((s.dropWhile jsWhitespace).reverse.dropWhile jsWhitespace).reverse

/-- Leftmost occurrence of the literal `pat` in `s`:
`splitFirst pat s = some (a, b)` when `s = a ++ pat ++ b` and `pat` does not
occur earlier.  This is also exactly the semantics of a lazy regex capture
`([\s\S]*?)` followed by the literal `pat`. -/
def splitFirst (pat : List Char) : List Char → Option (List Char × List Char)
  | [] => if pat.isPrefixOf [] then some ([], []) else none
  | c :: cs =>
    if pat.isPrefixOf (c :: cs) then some ([], (c :: cs).drop pat.length)
    else (splitFirst pat cs).map (fun p => (c :: p.1, p.2))

/-- Lazy capture `(.*?)` followed by the literal `pat`: like `splitFirst`,
but the captured part may only contain `.`-matchable characters (no line
terminators). -/
def splitFirstDot (pat : List Char) : List Char → Option (List Char × List Char)
  | [] => if pat.isPrefixOf [] then some ([], []) else none
  | c :: cs =>
    if pat.isPrefixOf (c :: cs) then some ([], (c :: cs).drop pat.length)
    else if isDotChar c then (splitFirstDot pat cs).map (fun p => (c :: p.1, p.2))
    else none

/-- A regex engine trying an anchored matcher `f` at each start position from
the left; the result of the leftmost successful attempt wins.  This is the
semantics of `String.prototype.match` with a non-anchored pattern. -/
def scanFirst (f : List Char → Option α) : List Char → Option α
  | [] => f []
  | c :: cs =>
    match f (c :: cs) with
    | some r => some r
    | none => scanFirst f cs

/-- The regex fragment `[^>]*>`: consume up to and including the first `>`;
fails if there is none.  Returns what follows the `>`. -/
def dropTag : List Char → Option (List Char)
  | [] => none
  | c :: cs => if c = '>' then some cs else dropTag cs

/-- Anchored matcher combinator: the pattern starts with the literal `pat`,
then continues with `k` on the rest. -/
def guardPre (pat : List Char) (k : List Char → Option α) (s : List Char) :
    Option α :=
  if pat.isPrefixOf s then k (s.drop pat.length) else none

/-- Entity table of `decodeHtml` in the source: a matched `&...;` token is
replaced by its table entry, or kept verbatim when it is not in the table. -/
def decodeEntity (tok : List Char) : List Char :=
  if tok = "&amp;".toList then ['&']
  else if tok = "&lt;".toList then ['<']
  else if tok = "&gt;".toList then ['>']
  else if tok = "&quot;".toList then ['"']
  else if tok = "&#039;".toList then [Char.ofNat 39]
  else if tok = "&nbsp;".toList then [' ']
  else tok

/-- Fuelled worker for `decodeHtml`; the fuel (initially the string length,
always an upper bound for the characters still to be scanned) only makes the
recursion structural and is never exhausted on the initial call. -/
def decodeHtmlF : Nat → List Char → List Char
  | _, [] => []
  | 0, s => s
  | fuel + 1, c :: cs =>
    if c = '&' then
      match splitFirst [';'] cs with
      | some (body, rest) =>
        if body = [] then c :: decodeHtmlF fuel cs
        else decodeEntity ('&' :: (body ++ [';'])) ++ decodeHtmlF fuel rest
      | none => c :: decodeHtmlF fuel cs
    else c :: decodeHtmlF fuel cs

/-- `decodeHtml` from the source: `html.replace(/&[^;]+;/g, m => entities[m] || m)`.
The leftmost `&` with a later `;` and a nonempty body in between forms a
token; the token is replaced through the table exactly once and scanning
resumes after it. -/
def decodeHtml (s : List Char) : List Char :=
  decodeHtmlF s.length s

/-- Fuelled worker for `replaceAll`. -/
def replaceAllF (pat repl : List Char) : Nat → List Char → List Char
  | _, [] => []
  | 0, s => s
  | fuel + 1, c :: cs =>
    if pat ≠ [] ∧ pat.isPrefixOf (c :: cs) then
      repl ++ replaceAllF pat repl fuel (cs.drop (pat.length - 1))
    else c :: replaceAllF pat repl fuel cs

/-- JavaScript `String.prototype.replace` with a global literal pattern:
replace every non-overlapping occurrence, left to right. -/
def replaceAll (pat repl s : List Char) : List Char :=
  replaceAllF pat repl s.length s

/-- Fuelled worker for `stripTags`. -/
def stripTagsF : Nat → List Char → List Char
  | _, [] => []
  | 0, s => s
  | fuel + 1, c :: cs =>
    if c = '<' then
      match splitFirst ['>'] cs with
      | some (_, rest) => stripTagsF fuel rest
      | none => c :: stripTagsF fuel cs
    else c :: stripTagsF fuel cs

/-- The source's `.replace(/<[^>]*>/g, '')`: drop every `<`-to-first-`>`
span; a `<` with no later `>` is kept. -/
def stripTags (s : List Char) : List Char :=
  stripTagsF s.length s

/-- The description-cleaning pipeline of `parseRssFeed` (lines 137–144):
strip tags, then sequentially replace `&nbsp;`, `&quot;`, `&amp;`, `&lt;`,
`&gt;` in that order, then trim.  (Note: `&#039;` is not in this list.) -/
def cleanDescription (descriptionHtml : List Char) : List Char :=
  trimL (replaceAll "&gt;".toList ">".toList
    (replaceAll "&lt;".toList "<".toList
      (replaceAll "&amp;".toList "&".toList
        (replaceAll "&quot;".toList "\"".toList
          (replaceAll "&nbsp;".toList " ".toList
            (stripTags descriptionHtml))))))

/-- Anchored matcher for `/<title[^>]*><!\[CDATA\[(.*?)\]\]><\/title>/`. -/
def titleCdataAt : List Char → Option (List Char) :=
  guardPre "<title".toList fun s1 =>
    match dropTag s1 with
    | some s2 =>
      guardPre "<![CDATA[".toList
        (fun s3 => (splitFirstDot "]]></title>".toList s3).map Prod.fst) s2
    | none => none

/-- Anchored matcher for `/<NAME[^>]*>([^<]*)<\/NAME>/` (with `([^<]+)` when
`allowEmpty` is false), used for the plain title, link, pubDate and creator
regexes of the source. -/
def tagPlainAt (name : List Char) (allowEmpty : Bool) : List Char → Option (List Char) :=
  guardPre ('<' :: name) fun s1 =>
    match dropTag s1 with
    | some s2 =>
      let run := s2.takeWhile (fun c => c != '<')
      if (allowEmpty || !run.isEmpty) = true ∧
          ('<' :: '/' :: (name ++ ['>'])).isPrefixOf (s2.dropWhile (fun c => c != '<')) then
        some run
      else none
    | none => none

/-- Anchored matcher for
`/<description[^>]*><!\[CDATA\[([\s\S]*?)\]\]><\/description>/`. -/
def descAt : List Char → Option (List Char) :=
  guardPre "<description".toList fun s1 =>
    match dropTag s1 with
    | some s2 =>
      guardPre "<![CDATA[".toList
        (fun s3 => (splitFirst "]]></description>".toList s3).map Prod.fst) s2
    | none => none

/-- The `src=["']([^"']+)["']` tail of the image regex, anchored. -/
def imgSrcTail (s : List Char) : Option (List Char) :=
  if "src=".toList.isPrefixOf s then
    match s.drop 4 with
    | q :: rest =>
      if q = '"' ∨ q = Char.ofNat 39 then
        let url := rest.takeWhile (fun c => c != '"' && c != Char.ofNat 39)
        match rest.dropWhile (fun c => c != '"' && c != Char.ofNat 39) with
        | _ :: _ => if url ≠ [] then some url else none
        | [] => none
      else none
    | [] => none
  else none

/-- Backtracking of the greedy `[^>]+` in the image regex: try the longest
run of non-`>` characters first, then shorter ones, never the empty run. -/
def imgTry : Nat → List Char → Option (List Char)
  | 0, _ => none
  | p + 1, s =>
    match imgSrcTail (s.drop (p + 1)) with
    | some url => some url
    | none => imgTry p s

/-- Anchored matcher for `/<img[^>]+src=["']([^"']+)["']/`. -/
def imgAt : List Char → Option (List Char) :=
  guardPre "<img".toList fun s1 =>
    imgTry (s1.takeWhile (fun c => c != '>')).length s1

/-- One parsed feed record, exactly the object pushed by `parseRssFeed`
(line 161–169).  `timestamp = none` models the `NaN` of an invalid date. -/
structure FeedItem where
  title : List Char
  description : List Char
  link : List Char
  pubDate : List Char
  author : List Char
  image : Option (List Char)
  timestamp : Option Int
deriving DecidableEq

/-- Title extraction (lines 113–122): the CDATA pattern is tried first, then
the plain pattern; the winning capture is trimmed then entity-decoded;
sentinel `"Untitled"` when neither matches. -/
def extractTitle (itemContent : List Char) : List Char :=
  match scanFirst titleCdataAt itemContent with
  | some m => decodeHtml (trimL m)
  | none =>
    match scanFirst (tagPlainAt "title".toList false) itemContent with
    | some m => decodeHtml (trimL m)
    | none => "Untitled".toList

/-- Description extraction before the length cap (lines 125–145): the CDATA
description capture run through the cleaning pipeline, else `''`. -/
def extractDescription (itemContent : List Char) : List Char :=
  match scanFirst descAt itemContent with
  | some dh => cleanDescription dh
  | none => []

/-- Featured-image extraction (lines 132–134): the first image source inside
the CDATA description capture, else `null`. -/
def extractImage (itemContent : List Char) : Option (List Char) :=
  match scanFirst descAt itemContent with
  | some dh => scanFirst imgAt dh
  | none => none

/-- Author extraction (lines 155–157): entity-decoded creator capture, with
the fixed site-identity sentinel. -/
def extractAuthor (itemContent : List Char) : List Char :=
  match scanFirst (tagPlainAt "creator".toList true) itemContent with
  | some m => decodeHtml m
  | none => "Dream the Wilderness".toList

/-- The body of the `while` loop of `parseRssFeed` (lines 110–169): extract
every field of one item block and build the pushed record.  `parseDate`
models the host's `new Date(s).getTime()` (`none` = `NaN`); `nowIso` models
`new Date().toISOString()`, substituted when no `pubDate` tag is found.
Note that the description is capped to 200 characters at push time
(line 163) and that no step of this extraction can throw. -/
def extractItem (parseDate : List Char → Option Int) (nowIso : List Char)
    (itemContent : List Char) : FeedItem :=
  let pubDateStr := (scanFirst (tagPlainAt "pubDate".toList true) itemContent).getD nowIso
  { title := extractTitle itemContent
    description := (extractDescription itemContent).take 200
    link := (scanFirst (tagPlainAt "link".toList true) itemContent).getD ['#']
    pubDate := pubDateStr
    author := extractAuthor itemContent
    image := extractImage itemContent
    timestamp := parseDate pubDateStr }

/-- Fuelled worker for `splitItems`. -/
def splitItemsF : Nat → List Char → List (List Char)
  | 0, _ => []
  | fuel + 1, s =>
    match splitFirst "<item>".toList s with
    | none => []
    | some (_, rest) =>
      match splitFirst "</item>".toList rest with
      | none => []
      | some (block, rest2) => block :: splitItemsF fuel rest2

/-- The repeated `itemRegex.exec` loop with `/<item>([\s\S]*?)<\/item>/g`:
each iteration captures the text between the leftmost `<item>` and the
nearest following `</item>`, and scanning resumes after the match. -/
def splitItems (s : List Char) : List (List Char) :=
  splitItemsF s.length s

/-- The sort comparator `(a, b) => b.timestamp - a.timestamp`, after the
ECMAScript `SortCompare` step that maps a `NaN` comparator result to `+0`. -/
def sortComp (a b : FeedItem) : Int :=
  match a.timestamp, b.timestamp with
  | some x, some y => y - x
  | _, _ => 0

/-- Stable insertion used to model the stable `Array.prototype.sort`:
an element is placed before the first element it need not follow. -/
def orderedInsertJS (a : FeedItem) : List FeedItem → List FeedItem
  | [] => [a]
  | b :: l => if sortComp a b ≤ 0 then a :: b :: l else b :: orderedInsertJS a l

/-- `items.sort((a, b) => b.timestamp - a.timestamp)` as a stable sort. -/
def sortByTimestamp : List FeedItem → List FeedItem
  | [] => []
  | a :: l => orderedInsertJS a (sortByTimestamp l)

/-- `parseRssFeed` (lines 102–181): split the document into item blocks,
extract a record from each, and sort by timestamp descending. -/
def parseRssFeed (parseDate : List Char → Option Int) (nowIso : List Char)
    (xmlText : List Char) : List FeedItem :=
  sortByTimestamp ((splitItems xmlText).map (extractItem parseDate nowIso))

/-- A stored cache value, exactly the JSON blob the handler writes:
`{items, updatedAt}` (the spec calls the second field `cachedAt`). -/
structure CacheEntry where
  items : List FeedItem
  updatedAt : List Char
deriving DecidableEq

/-- Outcome of `env.BLOG_CACHE.get(cacheKey, 'json')`: the call can throw
(`err`), return `null` (`miss`), or return a stored entry (`hit`). -/
inductive CacheGetResult where
  | err : CacheGetResult
  | miss : CacheGetResult
  | hit : CacheEntry → CacheGetResult
deriving DecidableEq

/-- Outcome of `fetch(SUBSTACK_FEED_URL)`: a network-level rejection, or a
response carrying `ok` (status in the 200 range) and its body text. -/
inductive FetchOutcome where
  | netErr : FetchOutcome
  | resp : Bool → List Char → FetchOutcome
deriving DecidableEq

/-- The JSON body the handler returns: the success envelope
`{status:'ok', items, count, updatedAt, cached}` or the error envelope
`{status:'error', message, error}`. -/
inductive ApiBody where
  | ok : List FeedItem → Nat → List Char → Bool → ApiBody
  | err : List Char → ApiBody
deriving DecidableEq

/-- An HTTP response of the handler: status code plus JSON body. -/
structure ApiResponse where
  status : Nat
  body : ApiBody
deriving DecidableEq

/-- The observable effects of one `onRequestGet` call: the response, whether
the upstream feed was fetched, and the cache entry written (if any). -/
structure GatewayResult where
  resp : ApiResponse
  didFetch : Bool
  putEntry : Option CacheEntry
deriving DecidableEq

/-- The external world one request runs against: whether `env.BLOG_CACHE` is
bound, what its `get` does, what `fetch` does, whether `put` throws, the
host date parser, and the three distinct `new Date()` readings the code
takes (line 153 inside the parser, line 59 at the cache write, line 75 at
the response). -/
structure World where
  cacheConfigured : Bool
  cacheGet : CacheGetResult
  fetchR : FetchOutcome
  putFails : Bool
  parseDate : List Char → Option Int
  nowParse : List Char
  nowPut : List Char
  nowResp : List Char

/-- Lines 44–77 of the handler: fetch the feed, throw on `!ok` or network
error (caught at line 79, producing the 500 error envelope), otherwise parse,
best-effort cache when nonempty, and return the fresh success envelope. -/
def fetchPath (w : World) : GatewayResult :=
  match w.fetchR with
  | FetchOutcome.netErr =>
    ⟨⟨500, ApiBody.err "Unable to fetch blog posts".toList⟩, true, none⟩
  | FetchOutcome.resp ok text =>
    if ok then
      let items := parseRssFeed w.parseDate w.nowParse text
      let putE :=
        if w.cacheConfigured ∧ items.length > 0 ∧ ¬ w.putFails then
          some ⟨items, w.nowPut⟩
        else none
      ⟨⟨200, ApiBody.ok items items.length w.nowResp false⟩, true, putE⟩
    else ⟨⟨500, ApiBody.err "Unable to fetch blog posts".toList⟩, true, none⟩

/-- `onRequestGet` (lines 6–87): serve the cached entry when the bound cache
store returns one (a thrown `get` is caught at line 39 and falls through),
otherwise fetch-and-parse. -/
def onRequestGet (w : World) : GatewayResult :=
  if w.cacheConfigured then
    match w.cacheGet with
    | CacheGetResult.hit e =>
      ⟨⟨200, ApiBody.ok e.items e.items.length e.updatedAt true⟩, false, none⟩
    | _ => fetchPath w
  else fetchPath w

/-- The comparison the spec's sort invariant speaks about: `A.timestamp ≥
B.timestamp` on JavaScript numbers.  Any comparison involving the `NaN` of
an invalid date is false. -/
def tsGe : Option Int → Option Int → Prop
  | some x, some y => y ≤ x
  | some _, none => False
  | none, some _ => False
  | none, none => False

instance instDecidableTsGe (a b : Option Int) : Decidable (tsGe a b) :=
  match a, b with
  | some x, some y => (inferInstance : Decidable (y ≤ x))
  | some _, none => isFalse (fun h => h)
  | none, some _ => isFalse (fun h => h)
  | none, none => isFalse (fun h => h)

/-- The `updatedAt` field of a response body (`none` for the error body). -/
def bodyUpdatedAt : ApiBody → Option (List Char)
  | ApiBody.ok _ _ u _ => some u
  | ApiBody.err _ => none

/-- The description pipeline as the SPEC words it (section 4.1 / claim C8):
strip all markup tags, decode HTML entities — `&amp;`, `&lt;`, `&gt;`,
`&quot;`, `&#039;`, `&nbsp;` at minimum — trim, then hard-truncate to 200
characters.  Stated only to be compared against the code's
`cleanDescription`; the two differ on `&#039;`. -/
def descriptionCleanSpec (descriptionHtml : List Char) : List Char :=
  (trimL (replaceAll "&#039;".toList [Char.ofNat 39]
    (replaceAll "&gt;".toList ">".toList
      (replaceAll "&lt;".toList "<".toList
        (replaceAll "&amp;".toList "&".toList
          (replaceAll "&quot;".toList "\"".toList
            (replaceAll "&nbsp;".toList " ".toList
              (stripTags descriptionHtml)))))))).take 200

/-- An RFC-1123 date string accepted by every JS engine. -/
def datJun : List Char := "Sat, 01 Jun 2024 00:00:00 GMT".toList

/-- A second, older RFC-1123 date string. -/
def datJan : List Char := "Mon, 01 Jan 2024 00:00:00 GMT".toList

/-- A string `new Date` cannot parse. -/
def datBad : List Char := "not a date".toList

/-- Concrete instance of the host date parser for the example documents:
the two RFC-1123 strings above parse to their epoch-millisecond values
(as `new Date(...).getTime()` returns on any engine), everything else is an
invalid date, i.e. `NaN`. -/
def exampleParseDate (s : List Char) : Option Int :=
  if s = datJun then some 1717200000000
  else if s = datJan then some 1704067200000
  else none

/-- A feed document with two items in document order: first an item whose
`pubDate` is unparsable, then an item with a valid newer date. -/
def docMixed : List Char :=
  ("<item><title>Bad</title><pubDate>not a date</pubDate></item>" ++
   "<item><title>Good</title><pubDate>Sat, 01 Jun 2024 00:00:00 GMT</pubDate></item>").toList

/-- A feed document with two items with valid dates, oldest first. -/
def docTwoGood : List Char :=
  ("<item><title>First</title><pubDate>Mon, 01 Jan 2024 00:00:00 GMT</pubDate></item>" ++
   "<item><title>Second</title><pubDate>Sat, 01 Jun 2024 00:00:00 GMT</pubDate></item>").toList

/-- An item block whose only title is CDATA-wrapped with a line break inside. -/
def docMultilineTitle : List Char :=
  "<title><![CDATA[A\nB]]></title>".toList

/-- An item block whose CDATA description contains the `&#039;` entity. -/
def blockApos : List Char :=
  "<description><![CDATA[He said &#039;hi&#039;]]></description>".toList

/-- A world for the cache-miss examples: cache bound but empty, upstream
fetch succeeds with `docTwoGood`, the write-time and response-time clock
readings differ by 42 ms (the code takes them with an `await`ed KV write in
between). -/
def exampleWorldMiss : World where
  cacheConfigured := true
  cacheGet := CacheGetResult.miss
  fetchR := FetchOutcome.resp true docTwoGood
  putFails := false
  parseDate := exampleParseDate
  nowParse := "2026-10-12T00:00:00.000Z".toList
  nowPut := "2026-10-12T00:00:00.100Z".toList
  nowResp := "2026-10-12T00:00:00.142Z".toList

/-- A concrete stored cache entry with one record. -/
def exampleEntry : CacheEntry :=
  ⟨[⟨"T".toList, [], ['#'], datJun, "A".toList, none, some 1717200000000⟩],
   "2026-10-12T00:00:00.000Z".toList⟩

/-- A world for the cache-hit example: the bound cache holds an unexpired
entry (the KV store itself expires entries at the 600-second TTL given at
write time, so an entry the `get` returns is by construction younger than
the TTL). -/
def exampleWorldHit : World where
  cacheConfigured := true
  cacheGet := CacheGetResult.hit exampleEntry
  fetchR := FetchOutcome.netErr
  putFails := false
  parseDate := exampleParseDate
  nowParse := "X".toList
  nowPut := "X".toList
  nowResp := "X".toList

/-- A world where the upstream returns HTTP 500 on a cache miss. -/
def exampleWorldUpstream500 : World where
  cacheConfigured := true
  cacheGet := CacheGetResult.miss
  fetchR := FetchOutcome.resp false "Internal Server Error".toList
  putFails := false
  parseDate := exampleParseDate
  nowParse := "X".toList
  nowPut := "X".toList
  nowResp := "X".toList

/-- A world where the cache store throws on `get` and the upstream fetch
succeeds. -/
def exampleWorldCacheErr : World where
  cacheConfigured := true
  cacheGet := CacheGetResult.err
  fetchR := FetchOutcome.resp true docTwoGood
  putFails := false
  parseDate := exampleParseDate
  nowParse := "2026-10-12T00:00:00.000Z".toList
  nowPut := "2026-10-12T00:00:00.100Z".toList
  nowResp := "2026-10-12T00:00:00.142Z".toList
theorem splitFirst_length {pat : List Char} (hp : pat ≠ []) :
    ∀ {s a b : List Char}, splitFirst pat s = some (a, b) → b.length < s.length := by
  intro s
  induction s with
  | nil =>
    intro a b h
    simp only [splitFirst] at h
    by_cases hpre : pat.isPrefixOf ([] : List Char)
    · rw [List.isPrefixOf_iff_prefix, List.prefix_nil] at hpre
      exact absurd hpre hp
    · rw [if_neg hpre] at h; cases h
  | cons c cs ih =>
    intro a b h
    simp only [splitFirst] at h
    by_cases hpre : pat.isPrefixOf (c :: cs)
    · rw [if_pos hpre] at h
      cases h
      have : pat.length ≥ 1 := by
        cases pat with
        | nil => exact absurd rfl hp
        | cons p ps => simp
      calc ((c :: cs).drop pat.length).length = (c :: cs).length - pat.length := by
              simp [List.length_drop]
        _ < (c :: cs).length := by
              simp only [List.length_cons]
              omega
    · rw [if_neg hpre] at h
      cases hsf : splitFirst pat cs with
      | none => rw [hsf] at h; simp at h
      | some p =>
        rw [hsf] at h
        simp only [Option.map_some'] at h
        cases h
        have := ih hsf
        simp only [List.length_cons]
        omega

theorem splitFirst_eq_append {pat : List Char} :
    ∀ {s a b : List Char}, splitFirst pat s = some (a, b) → s = a ++ pat ++ b := by
  intro s
  induction s with
  | nil =>
    intro a b h
    simp only [splitFirst] at h
    by_cases hpre : pat.isPrefixOf ([] : List Char)
    · rw [if_pos hpre] at h
      rw [List.isPrefixOf_iff_prefix, List.prefix_nil] at hpre
      cases h
      simp [hpre]
    · rw [if_neg hpre] at h; cases h
  | cons c cs ih =>
    intro a b h
    simp only [splitFirst] at h
    by_cases hpre : pat.isPrefixOf (c :: cs)
    · rw [if_pos hpre] at h
      cases h
      rw [List.isPrefixOf_iff_prefix] at hpre
      obtain ⟨t, ht⟩ := hpre
      simp [← ht, List.drop_left]
    · rw [if_neg hpre] at h
      cases hsf : splitFirst pat cs with
      | none => rw [hsf] at h; simp at h
      | some p =>
        rw [hsf] at h
        simp only [Option.map_some'] at h
        cases h
        have := ih hsf
        simp [this]

theorem not_isPrefixOf_cons {p c : Char} {pat cs : List Char} (h : c ≠ p) :
    ¬ (p :: pat).isPrefixOf (c :: cs) = true := by
  rw [List.isPrefixOf_iff_prefix, List.cons_prefix_cons]
  rintro ⟨h1, -⟩
  exact h h1.symm

theorem guardPre_hit {α : Type} (pat rest : List Char) (k : List Char → Option α) :
    guardPre pat k (pat ++ rest) = k rest := by
  unfold guardPre
  rw [if_pos, List.drop_left]
  rw [List.isPrefixOf_iff_prefix]
  exact List.prefix_append pat rest

theorem guardPre_cons_none {α : Type} {p c : Char} (pat : List Char)
    (k : List Char → Option α) (cs : List Char) (h : c ≠ p) :
    guardPre (p :: pat) k (c :: cs) = none := by
  unfold guardPre
  rw [if_neg (not_isPrefixOf_cons h)]

theorem scanFirst_eq_some {α : Type} {f : List Char → Option α} {s : List Char}
    {r : α} (h : f s = some r) : scanFirst f s = some r := by
  cases s with
  | nil => simpa [scanFirst] using h
  | cons c cs => simp [scanFirst, h]

theorem scanFirst_append_skip {α : Type} (f : List Char → Option α)
    (hf : ∀ c cs, c ≠ '<' → f (c :: cs) = none) :
    ∀ (pre : List Char), '<' ∉ pre → ∀ rest : List Char,
      scanFirst f (pre ++ rest) = scanFirst f rest := by
  intro pre
  induction pre with
  | nil => intro _ rest; simp
  | cons p ps ih =>
    intro hpre rest
    have hp : p ≠ '<' := fun h => hpre (h ▸ List.mem_cons_self p ps)
    have hps : '<' ∉ ps := fun h => hpre (List.mem_cons_of_mem _ h)
    have hnone : f (p :: (ps ++ rest)) = none := hf _ _ hp
    calc scanFirst f ((p :: ps) ++ rest) = scanFirst f (ps ++ rest) := by
          simp [scanFirst, hnone]
      _ = scanFirst f rest := ih hps rest

theorem takeWhile_append_cons (p : Char → Bool) (a : List Char) (d : Char)
    (b : List Char) (ha : ∀ c ∈ a, p c = true) (hd : p d = false) :
    (a ++ d :: b).takeWhile p = a := by
  induction a with
  | nil => simp [List.takeWhile_cons, hd]
  | cons c cs ih =>
    have hc : p c = true := ha c (List.mem_cons_self c cs)
    have hcs : ∀ x ∈ cs, p x = true := fun x hx => ha x (List.mem_cons_of_mem _ hx)
    simp [List.takeWhile_cons, hc, ih hcs]

theorem dropWhile_append_cons (p : Char → Bool) (a : List Char) (d : Char)
    (b : List Char) (ha : ∀ c ∈ a, p c = true) (hd : p d = false) :
    (a ++ d :: b).dropWhile p = d :: b := by
  induction a with
  | nil => simp [List.dropWhile_cons, hd]
  | cons c cs ih =>
    have hc : p c = true := ha c (List.mem_cons_self c cs)
    have hcs : ∀ x ∈ cs, p x = true := fun x hx => ha x (List.mem_cons_of_mem _ hx)
    simp [List.dropWhile_cons, hc, ih hcs]

theorem splitFirst_append_hit (t : Char) (ts : List Char) :
    ∀ (content post : List Char), t ∉ content →
      splitFirst (t :: ts) (content ++ (t :: (ts ++ post))) = some (content, post) := by
  intro content
  induction content with
  | nil =>
    intro post _
    show splitFirst (t :: ts) (t :: (ts ++ post)) = some ([], post)
    have hpre : (t :: ts).isPrefixOf (t :: (ts ++ post)) = true := by
      rw [List.isPrefixOf_iff_prefix, List.cons_prefix_cons]
      exact ⟨rfl, List.prefix_append ts post⟩
    simp only [splitFirst]
    rw [if_pos hpre]
    simp [List.drop_left]
  | cons c cs ih =>
    intro post hmem
    have hc : c ≠ t := fun h => hmem (h ▸ List.mem_cons_self c cs)
    have hcs : t ∉ cs := fun h => hmem (List.mem_cons_of_mem _ h)
    show splitFirst (t :: ts) (c :: (cs ++ (t :: (ts ++ post)))) = some (c :: cs, post)
    simp only [splitFirst]
    rw [if_neg (not_isPrefixOf_cons hc), ih post hcs]
    rfl

theorem splitFirstDot_append_hit (t : Char) (ts : List Char) :
    ∀ (content post : List Char), t ∉ content → (∀ c ∈ content, isDotChar c = true) →
      splitFirstDot (t :: ts) (content ++ (t :: (ts ++ post))) = some (content, post) := by
  intro content
  induction content with
  | nil =>
    intro post _ _
    show splitFirstDot (t :: ts) (t :: (ts ++ post)) = some ([], post)
    have hpre : (t :: ts).isPrefixOf (t :: (ts ++ post)) = true := by
      rw [List.isPrefixOf_iff_prefix, List.cons_prefix_cons]
      exact ⟨rfl, List.prefix_append ts post⟩
    simp only [splitFirstDot]
    rw [if_pos hpre]
    simp [List.drop_left]
  | cons c cs ih =>
    intro post hmem hdot
    have hc : c ≠ t := fun h => hmem (h ▸ List.mem_cons_self c cs)
    have hcs : t ∉ cs := fun h => hmem (List.mem_cons_of_mem _ h)
    have hdc : isDotChar c = true := hdot c (List.mem_cons_self c cs)
    have hdcs : ∀ x ∈ cs, isDotChar x = true := fun x hx => hdot x (List.mem_cons_of_mem _ hx)
    show splitFirstDot (t :: ts) (c :: (cs ++ (t :: (ts ++ post)))) = some (c :: cs, post)
    simp only [splitFirstDot]
    rw [if_neg (not_isPrefixOf_cons hc), if_pos hdc, ih post hcs hdcs]
    rfl

theorem dropTag_gt (rest : List Char) : dropTag ('>' :: rest) = some rest := by
  simp [dropTag]

theorem titleCdataAt_cons_none {c : Char} (cs : List Char) (h : c ≠ '<') :
    titleCdataAt (c :: cs) = none := by
  have e : ("<title".toList : List Char) = '<' :: "title".toList := rfl
  unfold titleCdataAt
  rw [e]
  exact guardPre_cons_none _ _ _ h

theorem tagPlainAt_cons_none (name : List Char) (allowEmpty : Bool) {c : Char}
    (cs : List Char) (h : c ≠ '<') :
    tagPlainAt name allowEmpty (c :: cs) = none := by
  unfold tagPlainAt
  exact guardPre_cons_none _ _ _ h

theorem descAt_cons_none {c : Char} (cs : List Char) (h : c ≠ '<') :
    descAt (c :: cs) = none := by
  have e : ("<description".toList : List Char) = '<' :: "description".toList := rfl
  unfold descAt
  rw [e]
  exact guardPre_cons_none _ _ _ h

theorem titleCdataAt_hit (content post : List Char)
    (hrb : ']' ∉ content) (hdot : ∀ c ∈ content, isDotChar c = true) :
    titleCdataAt ("<title><![CDATA[".toList ++ (content ++ ("]]></title>".toList ++ post)))
      = some content := by
  have e1 : ("<title><![CDATA[".toList : List Char)
      = "<title".toList ++ ('>' :: "<![CDATA[".toList) := rfl
  have e2 : ("]]></title>".toList : List Char) = ']' :: "]></title>".toList := rfl
  unfold titleCdataAt
  rw [e1, List.append_assoc, guardPre_hit, List.cons_append, dropTag_gt]
  show guardPre "<![CDATA[".toList _ ("<![CDATA[".toList ++ (content ++ ("]]></title>".toList ++ post))) = some content
  rw [guardPre_hit, e2, List.cons_append,
    splitFirstDot_append_hit ']' "]></title>".toList content post hrb hdot]
  rfl

theorem descAt_hit (content post : List Char) (hrb : ']' ∉ content) :
    descAt ("<description><![CDATA[".toList ++ (content ++ ("]]></description>".toList ++ post)))
      = some content := by
  have e1 : ("<description><![CDATA[".toList : List Char)
      = "<description".toList ++ ('>' :: "<![CDATA[".toList) := rfl
  have e2 : ("]]></description>".toList : List Char) = ']' :: "]></description>".toList := rfl
  unfold descAt
  rw [e1, List.append_assoc, guardPre_hit, List.cons_append, dropTag_gt]
  show guardPre "<![CDATA[".toList _ ("<![CDATA[".toList ++ (content ++ ("]]></description>".toList ++ post))) = some content
  rw [guardPre_hit, e2, List.cons_append,
    splitFirst_append_hit ']' "]></description>".toList content post hrb]
  rfl

theorem tagPlainAt_hit (name : List Char) (allowEmpty : Bool) (content post : List Char)
    (hlt : '<' ∉ content) (hne : (allowEmpty || !content.isEmpty) = true) :
    tagPlainAt name allowEmpty
      (('<' :: name) ++ ('>' :: (content ++ ('<' :: ('/' :: (name ++ ('>' :: post)))))))
      = some content := by
  have ha : ∀ c ∈ content, (c != '<') = true := by
    intro c hc
    have : c ≠ '<' := fun h => hlt (h ▸ hc)
    simpa [bne_iff_ne] using this
  have hd : (('<' : Char) != '<') = false := by simp
  unfold tagPlainAt
  rw [guardPre_hit, dropTag_gt]
  simp only [takeWhile_append_cons _ content '<' _ ha hd,
    dropWhile_append_cons _ content '<' _ ha hd]
  rw [if_pos]
  constructor
  · exact hne
  · rw [List.isPrefixOf_iff_prefix, List.cons_prefix_cons]
    refine ⟨rfl, ?_⟩
    rw [List.cons_prefix_cons]
    refine ⟨rfl, ?_⟩
    have e : name ++ ('>' :: post) = (name ++ ['>']) ++ post := by
      rw [List.append_assoc]; rfl
    rw [e]
    exact List.prefix_append _ _

theorem tsGe_of_sortComp_le {a b : FeedItem} (ha : a.timestamp.isSome = true)
    (hb : b.timestamp.isSome = true) (h : sortComp a b ≤ 0) :
    tsGe a.timestamp b.timestamp := by
  cases hta : a.timestamp with
  | none => rw [hta] at ha; simp at ha
  | some x =>
    cases htb : b.timestamp with
    | none => rw [htb] at hb; simp at hb
    | some y =>
      simp only [sortComp, hta, htb] at h
      show y ≤ x
      omega

theorem tsGe_of_not_sortComp_le {a b : FeedItem} (h : ¬ sortComp a b ≤ 0) :
    tsGe b.timestamp a.timestamp := by
  cases hta : a.timestamp with
  | none =>
    exact absurd (by simp [sortComp, hta] : sortComp a b ≤ 0) h
  | some x =>
    cases htb : b.timestamp with
    | none =>
      exact absurd (by simp [sortComp, hta, htb] : sortComp a b ≤ 0) h
    | some y =>
      simp only [sortComp, hta, htb] at h
      show x ≤ y
      omega

theorem tsGe_trans {a b c : Option Int} (h1 : tsGe a b) (h2 : tsGe b c) : tsGe a c := by
  cases a with
  | none => cases b <;> exact absurd h1 (fun h => h)
  | some x =>
    cases b with
    | none => exact absurd h1 (fun h => h)
    | some y =>
      cases c with
      | none => exact absurd h2 (fun h => h)
      | some z =>
        show z ≤ x
        exact le_trans (h2 : z ≤ y) (h1 : y ≤ x)

theorem mem_orderedInsertJS {c a : FeedItem} :
    ∀ {l : List FeedItem}, c ∈ orderedInsertJS a l → c = a ∨ c ∈ l := by
  intro l
  induction l with
  | nil => intro h; simp [orderedInsertJS] at h; exact Or.inl h
  | cons b l ih =>
    intro h
    by_cases hc : sortComp a b ≤ 0
    · simp only [orderedInsertJS, if_pos hc] at h
      rcases List.mem_cons.mp h with h | h
      · exact Or.inl h
      · exact Or.inr h
    · simp only [orderedInsertJS, if_neg hc] at h
      rcases List.mem_cons.mp h with h | h
      · exact Or.inr (by simp [h])
      · rcases ih h with h2 | h2
        · exact Or.inl h2
        · exact Or.inr (List.mem_cons_of_mem _ h2)

theorem pairwise_orderedInsertJS {a : FeedItem} :
    ∀ {l : List FeedItem}, a.timestamp.isSome = true →
      (∀ b ∈ l, b.timestamp.isSome = true) →
      List.Pairwise (fun x y => tsGe x.timestamp y.timestamp) l →
      List.Pairwise (fun x y => tsGe x.timestamp y.timestamp) (orderedInsertJS a l) := by
  intro l
  induction l with
  | nil => intro _ _ _; simp [orderedInsertJS]
  | cons b l ih =>
    intro ha hl hp
    rw [List.pairwise_cons] at hp
    have hb : b.timestamp.isSome = true := hl b (List.mem_cons_self b l)
    have hl2 : ∀ x ∈ l, x.timestamp.isSome = true :=
      fun x hx => hl x (List.mem_cons_of_mem _ hx)
    by_cases hc : sortComp a b ≤ 0
    · simp only [orderedInsertJS, if_pos hc]
      rw [List.pairwise_cons]
      constructor
      · intro x hx
        rcases List.mem_cons.mp hx with hx | hx
        · rw [hx]; exact tsGe_of_sortComp_le ha hb hc
        · exact tsGe_trans (tsGe_of_sortComp_le ha hb hc) (hp.1 x hx)
      · rw [List.pairwise_cons]
        exact hp
    · simp only [orderedInsertJS, if_neg hc]
      rw [List.pairwise_cons]
      constructor
      · intro x hx
        rcases mem_orderedInsertJS hx with hx2 | hx2
        · rw [hx2]; exact tsGe_of_not_sortComp_le hc
        · exact hp.1 x hx2
      · exact ih ha hl2 hp.2

theorem mem_sortByTimestamp {c : FeedItem} :
    ∀ {l : List FeedItem}, c ∈ sortByTimestamp l → c ∈ l := by
  intro l
  induction l with
  | nil => intro h; simp [sortByTimestamp] at h
  | cons a l ih =>
    intro h
    rcases mem_orderedInsertJS (by simpa [sortByTimestamp] using h) with h2 | h2
    · simp [h2]
    · exact List.mem_cons_of_mem _ (ih h2)

theorem pairwise_sortByTimestamp :
    ∀ (l : List FeedItem), (∀ b ∈ l, b.timestamp.isSome = true) →
      List.Pairwise (fun x y => tsGe x.timestamp y.timestamp) (sortByTimestamp l) := by
  intro l
  induction l with
  | nil => intro _; simp [sortByTimestamp]
  | cons a l ih =>
    intro hl
    have ha : a.timestamp.isSome = true := hl a (List.mem_cons_self a l)
    have hl2 : ∀ x ∈ l, x.timestamp.isSome = true :=
      fun x hx => hl x (List.mem_cons_of_mem _ hx)
    show List.Pairwise _ (orderedInsertJS a (sortByTimestamp l))
    exact pairwise_orderedInsertJS ha
      (fun x hx => hl2 x (mem_sortByTimestamp hx)) (ih hl2)

theorem filter_orderedInsertJS (t : Int) (a : FeedItem) :
    ∀ (l : List FeedItem),
      List.filter (fun r => decide (r.timestamp = some t)) (orderedInsertJS a l)
        = if a.timestamp = some t
          then a :: List.filter (fun r => decide (r.timestamp = some t)) l
          else List.filter (fun r => decide (r.timestamp = some t)) l := by
  intro l
  induction l with
  | nil =>
    by_cases hpa : a.timestamp = some t <;>
      simp [orderedInsertJS, List.filter_cons, hpa]
  | cons b l ih =>
    by_cases hc : sortComp a b ≤ 0
    · simp only [orderedInsertJS, if_pos hc]
      by_cases hpa : a.timestamp = some t <;>
        simp [List.filter_cons, hpa]
    · simp only [orderedInsertJS, if_neg hc]
      by_cases hpa : a.timestamp = some t
      · by_cases hpb : b.timestamp = some t
        · exact absurd (by simp [sortComp, hpa, hpb] : sortComp a b ≤ 0) hc
        · simp [List.filter_cons, hpa, hpb, ih]
      · by_cases hpb : b.timestamp = some t <;>
          simp [List.filter_cons, hpa, hpb, ih]

theorem filter_sortByTimestamp (t : Int) :
    ∀ (l : List FeedItem),
      List.filter (fun r => decide (r.timestamp = some t)) (sortByTimestamp l)
        = List.filter (fun r => decide (r.timestamp = some t)) l := by
  intro l
  induction l with
  | nil => simp [sortByTimestamp]
  | cons a l ih =>
    show List.filter _ (orderedInsertJS a (sortByTimestamp l)) = _
    rw [filter_orderedInsertJS]
    by_cases hpa : a.timestamp = some t <;>
      simp [List.filter_cons, hpa, ih]

set_option maxRecDepth 8192

/-- C7: for every well-formed item block containing a CDATA-wrapped title,
the extracted title equals the CDATA content trimmed of surrounding
whitespace and HTML-entity-decoded (the code applies `trim` first, then
`decodeHtml`); the CDATA pattern is consulted before the plain-text pattern,
so this holds no matter what plain `<title>` text also occurs in the block.
Well-formedness of the block: nothing before the title element opens a tag
(`'<' ∉ pre`), and the CDATA payload is single-line and free of `]` (so the
lazy capture ends exactly at the real `]]></title>` terminator). -/
theorem extractTitle_cdata_decoded_trimmed (pre content post : List Char)
    (hpre : '<' ∉ pre) (hrb : ']' ∉ content)
    (hdot : ∀ c ∈ content, isDotChar c = true) :
    extractTitle
        (pre ++ ("<title><![CDATA[".toList ++ (content ++ ("]]></title>".toList ++ post))))
      = decodeHtml (trimL content) := by
  have hscan : scanFirst titleCdataAt
      (pre ++ ("<title><![CDATA[".toList ++ (content ++ ("]]></title>".toList ++ post))))
      = some content := by
    rw [scanFirst_append_skip titleCdataAt
      (fun c cs h => titleCdataAt_cons_none cs h) pre hpre]
    exact scanFirst_eq_some (titleCdataAt_hit content post hrb hdot)
  unfold extractTitle
  rw [hscan]

/-- C7 witness: the theorem applied to the concrete block of the spec's
scenario (title `Hello &amp; Welcome` with surrounding whitespace). -/
theorem extractTitle_cdata_decoded_trimmed_witness :
    (']' ∉ "  Hello &amp; Welcome  ".toList) ∧
    extractTitle
        ([] ++ ("<title><![CDATA[".toList ++
          ("  Hello &amp; Welcome  ".toList ++ ("]]></title>".toList ++ []))))
      = decodeHtml (trimL "  Hello &amp; Welcome  ".toList) :=
  ⟨by decide,
   extractTitle_cdata_decoded_trimmed [] "  Hello &amp; Welcome  ".toList []
     (by decide) (by decide) (by decide)⟩

/-- C9: an item block whose only title is CDATA-wrapped with a line break in
the payload matches neither title pattern — the CDATA pattern's `(.*?)` does
not cross line terminators and the plain pattern's `([^<]+)` dies on the
`<` of `<![CDATA[` — so the extracted title is the sentinel `Untitled`. -/
theorem multiline_cdata_title_untitled :
    scanFirst titleCdataAt docMultilineTitle = none ∧
    scanFirst (tagPlainAt "title".toList false) docMultilineTitle = none ∧
    extractTitle docMultilineTitle = "Untitled".toList := by decide

/-- C10: the two entity decoders of the source disagree: `decodeHtml`
(titles/authors) replaces each `&...;` token at most once, so the literal
text `&amp;lt;` becomes `&lt;`, while the description pipeline replaces
`&amp;` before `&lt;`/`&gt;`, so the same text becomes `<`. -/
theorem decoders_disagree :
    decodeHtml "&amp;lt;".toList = "&lt;".toList ∧
    cleanDescription "&amp;lt;".toList = "<".toList ∧
    decodeHtml "&amp;lt;".toList ≠ cleanDescription "&amp;lt;".toList := by decide

/-- C8 (amended): for every well-formed item block with a CDATA-wrapped
description, the extracted description equals the payload run through the
code's pipeline — tags stripped, the five entities `&nbsp;`, `&quot;`,
`&amp;`, `&lt;`, `&gt;` sequentially replaced (NOT `&#039;`, contrary to the
claim's "at minimum" list), whitespace trimmed, then hard-cut to 200
characters with no ellipsis.  Well-formedness: no tag opens before the
description element and the payload contains no `]`. -/
theorem extractDescription_pipeline (parseDate : List Char → Option Int)
    (nowIso pre content post : List Char)
    (hpre : '<' ∉ pre) (hrb : ']' ∉ content) :
    (extractItem parseDate nowIso
        (pre ++ ("<description><![CDATA[".toList ++
          (content ++ ("]]></description>".toList ++ post))))).description
      = (cleanDescription content).take 200 := by
  have hscan : scanFirst descAt
      (pre ++ ("<description><![CDATA[".toList ++
        (content ++ ("]]></description>".toList ++ post))))
      = some content := by
    rw [scanFirst_append_skip descAt (fun c cs h => descAt_cons_none cs h) pre hpre]
    exact scanFirst_eq_some (descAt_hit content post hrb)
  have e : (extractItem parseDate nowIso
      (pre ++ ("<description><![CDATA[".toList ++
        (content ++ ("]]></description>".toList ++ post))))).description
      = (extractDescription
          (pre ++ ("<description><![CDATA[".toList ++
            (content ++ ("]]></description>".toList ++ post))))).take 200 := rfl
  rw [e]
  unfold extractDescription
  rw [hscan]

/-- C8 witness: the amended theorem at a concrete block whose payload holds
markup, the five supported entities and surrounding whitespace. -/
theorem extractDescription_pipeline_witness :
    (']' ∉ " <p>1 &lt; 2 &amp; &quot;ok&quot;&nbsp;&gt; 0</p> ".toList) ∧
    (extractItem exampleParseDate "NOW".toList
        ([] ++ ("<description><![CDATA[".toList ++
          (" <p>1 &lt; 2 &amp; &quot;ok&quot;&nbsp;&gt; 0</p> ".toList ++
            ("]]></description>".toList ++ []))))).description
      = (cleanDescription " <p>1 &lt; 2 &amp; &quot;ok&quot;&nbsp;&gt; 0</p> ".toList).take 200 :=
  ⟨by decide,
   extractDescription_pipeline exampleParseDate "NOW".toList []
     " <p>1 &lt; 2 &amp; &quot;ok&quot;&nbsp;&gt; 0</p> ".toList []
     (by decide) (by decide)⟩

/-- C8 counterexample: the claim requires `&#039;` to be decoded "at
minimum"; the code's description pipeline leaves `&#039;` in place, so the
extraction differs from the spec-worded pipeline `descriptionCleanSpec` on
a description whose payload is `He said &#039;hi&#039;`. -/
theorem description_apos_not_decoded :
    (extractItem exampleParseDate "NOW".toList blockApos).description
      = "He said &#039;hi&#039;".toList ∧
    descriptionCleanSpec "He said &#039;hi&#039;".toList
      = "He said ".toList ++ Char.ofNat 39 :: ("hi".toList ++ [Char.ofNat 39]) ∧
    (extractItem exampleParseDate "NOW".toList blockApos).description
      ≠ descriptionCleanSpec "He said &#039;hi&#039;".toList := by decide

/-- C2 (amended): an item block whose pubDate string the host date parser
rejects still yields a record — no step of the extraction can throw, as all
model functions are total — with `pubDate` preserved verbatim and the
derived timestamp equal to the invalid-date value `NaN` (`none`), which is
not a number at all, let alone the smallest one; the sort comparator maps
every comparison against it to `+0`, so the record keeps its
document-relative position instead of sorting as oldest. -/
theorem unparsable_date_timestamp_none (parseDate : List Char → Option Int)
    (nowIso pre d post : List Char)
    (hpre : '<' ∉ pre) (hd : '<' ∉ d) (hbad : parseDate d = none) :
    (extractItem parseDate nowIso
        (pre ++ ("<pubDate>".toList ++ (d ++ ("</pubDate>".toList ++ post))))).pubDate = d ∧
    (extractItem parseDate nowIso
        (pre ++ ("<pubDate>".toList ++ (d ++ ("</pubDate>".toList ++ post))))).timestamp
      = none := by
  have e1 : ("<pubDate>".toList : List Char) ++ (d ++ ("</pubDate>".toList ++ post))
      = ('<' :: "pubDate".toList) ++
        ('>' :: (d ++ ('<' :: ('/' :: ("pubDate".toList ++ ('>' :: post)))))) := rfl
  have hscan : scanFirst (tagPlainAt "pubDate".toList true)
      (pre ++ ("<pubDate>".toList ++ (d ++ ("</pubDate>".toList ++ post)))) = some d := by
    rw [scanFirst_append_skip (tagPlainAt "pubDate".toList true)
      (fun c cs h => tagPlainAt_cons_none _ _ cs h) pre hpre]
    rw [e1]
    exact scanFirst_eq_some (tagPlainAt_hit "pubDate".toList true d post hd (by simp))
  have hpd : (extractItem parseDate nowIso
      (pre ++ ("<pubDate>".toList ++ (d ++ ("</pubDate>".toList ++ post))))).pubDate
      = ((scanFirst (tagPlainAt "pubDate".toList true)
          (pre ++ ("<pubDate>".toList ++ (d ++ ("</pubDate>".toList ++ post))))).getD nowIso) := rfl
  have hts : (extractItem parseDate nowIso
      (pre ++ ("<pubDate>".toList ++ (d ++ ("</pubDate>".toList ++ post))))).timestamp
      = parseDate ((scanFirst (tagPlainAt "pubDate".toList true)
          (pre ++ ("<pubDate>".toList ++ (d ++ ("</pubDate>".toList ++ post))))).getD nowIso) := rfl
  constructor
  · rw [hpd, hscan]; rfl
  · rw [hts, hscan]
    show parseDate d = none
    exact hbad

/-- C2 witness: the amended theorem at the concrete unparsable string
`not a date`. -/
theorem unparsable_date_timestamp_none_witness :
    ('<' ∉ datBad) ∧ exampleParseDate datBad = none ∧
    (extractItem exampleParseDate "NOW".toList
        ([] ++ ("<pubDate>".toList ++ (datBad ++ ("</pubDate>".toList ++ []))))).timestamp
      = none :=
  ⟨by decide, by decide,
   (unparsable_date_timestamp_none exampleParseDate "NOW".toList [] datBad []
     (by decide) (by decide) (by decide)).2⟩

/-- C2 counterexample: in `docMixed` the unparsable-date record precedes a
record with a valid June-2024 timestamp in document order; after parsing it
is still FIRST (the newest slot) with timestamp `NaN` (`none`), not a
smallest numeric timestamp sorting it to the oldest (last) slot as the
claim demands. -/
theorem unparsable_date_not_oldest :
    (parseRssFeed exampleParseDate "NOW".toList docMixed).map (fun r => r.pubDate)
      = [datBad, datJun] ∧
    (parseRssFeed exampleParseDate "NOW".toList docMixed).map (fun r => r.timestamp)
      = [none, some 1717200000000] := by decide

/-- C1 (amended): for every feed document ALL of whose extracted records
carry a valid (non-`NaN`) timestamp, the parser output satisfies the
descending invariant on every adjacent pair, and records with equal
timestamps keep their original document order (stated as: filtering the
output by any fixed timestamp value returns exactly the document-order
sublist of records with that timestamp).  The validity restriction is
forced by the counterexample: one `NaN` timestamp breaks the adjacent-pair
invariant. -/
theorem parseRssFeed_sorted_of_valid_timestamps
    (parseDate : List Char → Option Int) (nowIso xmlText : List Char)
    (hv : ∀ r ∈ (splitItems xmlText).map (extractItem parseDate nowIso),
      r.timestamp.isSome = true) :
    List.Chain' (fun a b => tsGe a.timestamp b.timestamp)
        (parseRssFeed parseDate nowIso xmlText) ∧
    ∀ t : Int,
      (parseRssFeed parseDate nowIso xmlText).filter
          (fun r => decide (r.timestamp = some t))
        = ((splitItems xmlText).map (extractItem parseDate nowIso)).filter
            (fun r => decide (r.timestamp = some t)) := by
  constructor
  · exact (pairwise_sortByTimestamp _ hv).chain'
  · intro t
    exact filter_sortByTimestamp t _

/-- C1 witness: the amended theorem on the two-item document with valid
dates (oldest first in document order; the output is June before January). -/
theorem parseRssFeed_sorted_of_valid_timestamps_witness :
    (∀ r ∈ (splitItems docTwoGood).map (extractItem exampleParseDate "NOW".toList),
      r.timestamp.isSome = true) ∧
    List.Chain' (fun a b => tsGe a.timestamp b.timestamp)
        (parseRssFeed exampleParseDate "NOW".toList docTwoGood) ∧
    (parseRssFeed exampleParseDate "NOW".toList docTwoGood).filter
        (fun r => decide (r.timestamp = some 1717200000000))
      = ((splitItems docTwoGood).map (extractItem exampleParseDate "NOW".toList)).filter
          (fun r => decide (r.timestamp = some 1717200000000)) :=
  ⟨by decide,
   (parseRssFeed_sorted_of_valid_timestamps exampleParseDate "NOW".toList docTwoGood
     (by decide)).1,
   (parseRssFeed_sorted_of_valid_timestamps exampleParseDate "NOW".toList docTwoGood
     (by decide)).2 1717200000000⟩

/-- C1 counterexample: on `docMixed` (one unparsable date before one valid
date) the parsed result violates the adjacent-pair invariant `A.timestamp ≥
B.timestamp`: the first record's timestamp is the `NaN` of the invalid
date, and no comparison with `NaN` holds. -/
theorem parseRssFeed_not_always_sorted :
    ¬ List.Chain' (fun a b => tsGe a.timestamp b.timestamp)
        (parseRssFeed exampleParseDate "NOW".toList docMixed) := by
  intro h
  have h2 : List.Chain' tsGe
      ((parseRssFeed exampleParseDate "NOW".toList docMixed).map
        (fun r => r.timestamp)) :=
    (List.chain'_map (fun r : FeedItem => r.timestamp)).mpr h
  have e : (parseRssFeed exampleParseDate "NOW".toList docMixed).map
      (fun r => r.timestamp) = [none, some 1717200000000] := by decide
  rw [e] at h2
  exact (List.chain'_cons.mp h2).1

/-- C3: while the bound cache store returns an entry (the store itself
enforces the 600-second TTL set at write time, so a returned entry is by
construction younger than the TTL), the handler performs no upstream fetch,
writes nothing, and returns the stored records with `cached: true` and
`updatedAt` equal to the stored time; in particular a second call that hits
the same entry — e.g. within the same 10-minute window — returns an
identical result, hence an identical `updatedAt`. -/
theorem cache_hit_returns_cached (w w2 : World) (e : CacheEntry)
    (hc : w.cacheConfigured = true) (hh : w.cacheGet = CacheGetResult.hit e)
    (hc2 : w2.cacheConfigured = true) (hh2 : w2.cacheGet = CacheGetResult.hit e) :
    onRequestGet w
      = ⟨⟨200, ApiBody.ok e.items e.items.length e.updatedAt true⟩, false, none⟩ ∧
    onRequestGet w2 = onRequestGet w := by
  constructor
  · simp [onRequestGet, hc, hh]
  · simp [onRequestGet, hc, hh, hc2, hh2]

/-- C3 witness: the theorem at the concrete hit world. -/
theorem cache_hit_returns_cached_witness :
    exampleWorldHit.cacheConfigured = true ∧
    exampleWorldHit.cacheGet = CacheGetResult.hit exampleEntry ∧
    onRequestGet exampleWorldHit
      = ⟨⟨200, ApiBody.ok exampleEntry.items exampleEntry.items.length
          exampleEntry.updatedAt true⟩, false, none⟩ :=
  ⟨rfl, rfl,
   (cache_hit_returns_cached exampleWorldHit exampleWorldHit exampleEntry
     rfl rfl rfl rfl).1⟩

/-- C4 (amended): on a cache miss with a successful upstream fetch, the
handler fetches, parses, writes a new cache entry — stamped with the clock
reading taken at the write (line 59) — exactly when the parsed record count
is positive (and the store is bound and its `put` does not throw), and
returns the parsed records with `cached: false` and `updatedAt` equal to a
SECOND, later clock reading taken when the response is built (line 75); the
returned `updatedAt` therefore equals the stored `cachedAt` only when no
time elapses across the awaited write, not in general. -/
theorem cache_miss_behavior (w : World) (text : List Char)
    (hc : w.cacheConfigured = true) (hm : w.cacheGet = CacheGetResult.miss)
    (hp : w.putFails = false) (hf : w.fetchR = FetchOutcome.resp true text) :
    onRequestGet w =
      ⟨⟨200, ApiBody.ok (parseRssFeed w.parseDate w.nowParse text)
          (parseRssFeed w.parseDate w.nowParse text).length w.nowResp false⟩,
        true,
        if 0 < (parseRssFeed w.parseDate w.nowParse text).length
        then some ⟨parseRssFeed w.parseDate w.nowParse text, w.nowPut⟩
        else none⟩ := by
  simp only [onRequestGet, hc, hm, if_true]
  simp only [fetchPath, hf, hc, hp]
  by_cases hl : 0 < (parseRssFeed w.parseDate w.nowParse text).length <;>
    simp [hl]

/-- C4 witness: the amended theorem at the concrete miss world (two parsed
records, so the entry is written with the write-time stamp while the
response carries the later response-time stamp). -/
theorem cache_miss_behavior_witness :
    exampleWorldMiss.cacheGet = CacheGetResult.miss ∧
    exampleWorldMiss.fetchR = FetchOutcome.resp true docTwoGood ∧
    onRequestGet exampleWorldMiss =
      ⟨⟨200, ApiBody.ok
          (parseRssFeed exampleWorldMiss.parseDate exampleWorldMiss.nowParse docTwoGood)
          (parseRssFeed exampleWorldMiss.parseDate exampleWorldMiss.nowParse docTwoGood).length
          exampleWorldMiss.nowResp false⟩,
        true,
        if 0 < (parseRssFeed exampleWorldMiss.parseDate exampleWorldMiss.nowParse docTwoGood).length
        then some ⟨parseRssFeed exampleWorldMiss.parseDate exampleWorldMiss.nowParse docTwoGood,
          exampleWorldMiss.nowPut⟩
        else none⟩ :=
  ⟨rfl, rfl,
   cache_miss_behavior exampleWorldMiss docTwoGood rfl rfl rfl rfl⟩

/-- C4 counterexample: in the concrete miss world the stored `cachedAt`
(`...00.100Z`, taken at the write) and the returned `updatedAt`
(`...00.142Z`, taken 42 ms later at response construction) are distinct,
refuting the claim that the returned `updatedAt` equals the stored
`cachedAt`. -/
theorem cache_miss_updatedAt_mismatch :
    (onRequestGet exampleWorldMiss).putEntry.map (fun e => e.updatedAt)
      = some "2026-10-12T00:00:00.100Z".toList ∧
    bodyUpdatedAt (onRequestGet exampleWorldMiss).resp.body
      = some "2026-10-12T00:00:00.142Z".toList ∧
    (onRequestGet exampleWorldMiss).putEntry.map (fun e => e.updatedAt)
      ≠ bodyUpdatedAt (onRequestGet exampleWorldMiss).resp.body := by decide

/-- C5: whenever the upstream fetch runs (no usable cache entry) and fails —
network rejection or a non-success HTTP status such as 500 — the handler
returns the distinct 500 error envelope, never any success envelope (stale
or empty). -/
theorem upstream_failure_is_error (w : World)
    (hmiss : w.cacheConfigured = false ∨ w.cacheGet = CacheGetResult.miss ∨
      w.cacheGet = CacheGetResult.err)
    (hfail : w.fetchR = FetchOutcome.netErr ∨
      ∃ text, w.fetchR = FetchOutcome.resp false text) :
    (onRequestGet w).resp = ⟨500, ApiBody.err "Unable to fetch blog posts".toList⟩ ∧
    ∀ items count updatedAt cached,
      (onRequestGet w).resp.body ≠ ApiBody.ok items count updatedAt cached := by
  have hfp : (fetchPath w).resp
      = ⟨500, ApiBody.err "Unable to fetch blog posts".toList⟩ := by
    rcases hfail with h | ⟨text, h⟩ <;> simp [fetchPath, h]
  have hmain : (onRequestGet w).resp
      = ⟨500, ApiBody.err "Unable to fetch blog posts".toList⟩ := by
    rcases hmiss with h | h | h
    · simp [onRequestGet, h, hfp]
    · cases hcc : w.cacheConfigured <;> simp [onRequestGet, hcc, h, hfp]
    · cases hcc : w.cacheConfigured <;> simp [onRequestGet, hcc, h, hfp]
  refine ⟨hmain, ?_⟩
  intro items count updatedAt cached
  rw [hmain]
  intro hbad
  cases hbad

/-- C5 witness: the theorem at the concrete world whose upstream answers
HTTP 500 on a cache miss. -/
theorem upstream_failure_is_error_witness :
    exampleWorldUpstream500.cacheGet = CacheGetResult.miss ∧
    exampleWorldUpstream500.fetchR
      = FetchOutcome.resp false "Internal Server Error".toList ∧
    (onRequestGet exampleWorldUpstream500).resp
      = ⟨500, ApiBody.err "Unable to fetch blog posts".toList⟩ :=
  ⟨rfl, rfl,
   (upstream_failure_is_error exampleWorldUpstream500
     (Or.inr (Or.inl rfl))
     (Or.inr ⟨"Internal Server Error".toList, rfl⟩)).1⟩

/-- C6: when the bound cache store throws on `get`, the handler swallows the
error (inner catch, line 39) and behaves exactly like a cache miss: with a
successful upstream fetch it still returns the 200 success envelope built
from a fresh fetch-and-parse, with `cached: false`. -/
theorem cache_read_error_falls_through (w : World) (text : List Char)
    (hc : w.cacheConfigured = true) (he : w.cacheGet = CacheGetResult.err)
    (hf : w.fetchR = FetchOutcome.resp true text) :
    (onRequestGet w).resp.status = 200 ∧
    (onRequestGet w).resp.body
      = ApiBody.ok (parseRssFeed w.parseDate w.nowParse text)
          (parseRssFeed w.parseDate w.nowParse text).length w.nowResp false ∧
    (onRequestGet w).didFetch = true := by
  have h1 : onRequestGet w = fetchPath w := by
    simp [onRequestGet, hc, he]
  rw [h1]
  simp [fetchPath, hf]

/-- C6 witness: the theorem at the concrete world whose cache `get` throws
and whose upstream returns the two-item document. -/
theorem cache_read_error_falls_through_witness :
    exampleWorldCacheErr.cacheGet = CacheGetResult.err ∧
    exampleWorldCacheErr.fetchR = FetchOutcome.resp true docTwoGood ∧
    (onRequestGet exampleWorldCacheErr).resp.status = 200 ∧
    (onRequestGet exampleWorldCacheErr).didFetch = true :=
  ⟨rfl, rfl,
   (cache_read_error_falls_through exampleWorldCacheErr docTwoGood rfl rfl rfl).1,
   (cache_read_error_falls_through exampleWorldCacheErr docTwoGood rfl rfl rfl).2.2⟩
